import Mathlib

/-!
Shallow embedding of the Bingo spatial prefetcher core
(`src/prefetcher/pref_bingo.c`) and proofs about its specification.

Machine integers (`Addr` = `uns64`, `uns` = 32-bit) are modelled as `Nat`
with explicit truncation where C arithmetic can wrap.  The per-page
footprint bitmap `Flag accessed[64]` is modelled as the set of indices
holding `TRUE`.  The fixed arrays `line[16]` / `usage_order[16]` of a
history bucket are modelled as lists holding exactly the occupied slots
(indices `0 .. current_size-1`), which coincides with the C arrays on
every state reachable from the zero-initialised bucket because the C code
never reads a slot at or beyond `current_size`.
-/

/-- Truncation to 64 bits, applied where the C `Addr` arithmetic can wrap. -/
def trunc64 (x : Nat) : Nat := x % 2 ^ 64

/-- Truncation to 32 bits, for the `(uns)` cast of the emitted line index. -/
def trunc32 (x : Nat) : Nat := x % 2 ^ 32

/-- Model of `bingo_get_page_number`: 4KB pages, remove the low 12 bits. -/
def bingo_get_page_number (addr : Nat) : Nat := addr >>> 12

/-- Model of `bingo_get_page_base_from_number`. -/
def bingo_get_page_base_from_number (page_num : Nat) : Nat :=
  trunc64 (page_num <<< 12)

/-- Model of `bingo_get_block_index`: page offset (low 12 bits) divided by the 64B
line size. -/
def bingo_get_block_index (addr : Nat) : Nat := (addr % 4096) >>> 6

/-- Model of `Aux_Entry`: per-page live footprint record held in `Aux_Storage`.
The bitmap is the set of block indices whose flag is `TRUE`. -/
structure Aux_Entry where
  trigger_addr : Nat
  pc : Nat
  footprint : Finset Nat
deriving DecidableEq

/-- Model of `Bingo_History_Table`: one committed history record. -/
structure Bingo_History_Table where
  pc_plus_address : Nat
  pc_plus_offset : Nat
  entry : Aux_Entry
deriving DecidableEq

/-- Default record, used only for out-of-range reads that cannot occur on
well-formed buckets (mirrors reading an unoccupied C array slot). -/
def dfltRec : Bingo_History_Table := ⟨0, 0, ⟨0, 0, ∅⟩⟩

/-- Model of `Bingo_Table_Line`: one history bucket.  `line` holds the occupied
slots in slot order; `usage_order` lists occupied-slot indices in recency
order (front = most recently used).  `current_size` is `line.length`. -/
structure Bingo_Table_Line where
  line : List Bingo_History_Table
  usage_order : List Nat
deriving DecidableEq

/-- Model of `current_size` of a bucket (the C code keeps it as an explicit counter
equal to the number of occupied slots). -/
def Bingo_Table_Line.current_size (t : Bingo_Table_Line) : Nat := t.line.length

/-- The zero-initialised bucket (`memset(&new_line, 0, ...)`):
`current_size = 0`, no occupied slot. -/
def zeroLine : Bingo_Table_Line := ⟨[], []⟩

/-! ### The associative-store utility (`hash_lib`), modelled as an
association list with unique keys.  `count` is the number of live entries. -/

/-- Model of `hash_table_access`: look up a key, `none` when absent. -/
def htLookup {α : Type} (t : List (Nat × α)) (k : Nat) : Option α :=
  (t.find? (fun p => p.1 == k)).map (·.2)

/-- Model of `hash_table_access_replace`: insert or overwrite the value at a key. -/
def htReplace {α : Type} (t : List (Nat × α)) (k : Nat) (v : α) :
    List (Nat × α) :=
  if (htLookup t k).isSome then
    t.map (fun p => if p.1 == k then (k, v) else p)
  else
    t ++ [(k, v)]

/-- Model of `hash_table_access_delete`: remove the entry at a key. -/
def htDelete {α : Type} (t : List (Nat × α)) (k : Nat) : List (Nat × α) :=
  t.filter (fun p => ¬ p.1 == k)

/-- Model of `Hash_Table.count`: number of live entries. -/
def htCount {α : Type} (t : List (Nat × α)) : Nat := t.length

/-! ### Bucket operations -/

/-- Index of the first list element satisfying `p` (the C scan
`for(i = 0; i < current_size; i++) ... break;`). -/
def findIdxA {α : Type} (p : α → Bool) : List α → Option Nat
  | [] => none
  | a :: as => if p a then some 0 else (findIdxA p as).map (· + 1)

/-- Move the first occurrence of `fi` in `usage_order` to the front
(the shift loop of `mark_used_by_address`); no-op when absent. -/
def promote (uo : List Nat) (fi : Nat) : List Nat :=
  if fi ∈ uo then fi :: uo.erase fi else uo

/-- Model of `add_entry`: insert a record as most-recently-used; when the bucket is
full, overwrite the least-recently-used slot (`usage_order[15]`). -/
def add_entry (t : Bingo_Table_Line) (new_entry : Bingo_History_Table) :
    Bingo_Table_Line :=
  if t.line.length < 16 then
    { line := t.line ++ [new_entry],
      usage_order := t.line.length :: t.usage_order }
  else
    let index_to_replace := t.usage_order.getD 15 0
    { line := t.line.set index_to_replace new_entry,
      usage_order := index_to_replace :: t.usage_order.take 15 }

/-- Model of `mark_used_by_address`: find the first slot (in slot order) holding the
given `pc_plus_address` and move it to the front of `usage_order`. -/
def mark_used_by_address (t : Bingo_Table_Line) (pc_plus_address : Nat) :
    Bingo_Table_Line :=
  match findIdxA (fun r => r.pc_plus_address == pc_plus_address) t.line with
  | none => t
  | some found_index => { t with usage_order := promote t.usage_order found_index }

/-- The records of a bucket in recency order (the search loops walk
`line[usage_order[i]]` for `i < current_size`). -/
def recencyRecords (t : Bingo_Table_Line) : List Bingo_History_Table :=
  t.usage_order.map (fun i => t.line.getD i dfltRec)

/-- Model of `pref_bingo_find_event_to_fetch`: most-recently-used record with a
matching `pc_plus_offset`.  `histCount` models the global
`History_Table.count` read by the guard. -/
def pref_bingo_find_event_to_fetch (histCount : Nat) (t : Bingo_Table_Line)
    (pc_plus_offset : Nat) : Option Bingo_History_Table :=
  if histCount = 0 then none
  else (recencyRecords t).find? (fun r => r.pc_plus_offset == pc_plus_offset)

/-- Model of `pref_bingo_find_event_to_fetch_addr`: most-recently-used record with a
matching `pc_plus_address`. -/
def pref_bingo_find_event_to_fetch_addr (histCount : Nat)
    (t : Bingo_Table_Line) (pc_plus_address : Nat) :
    Option Bingo_History_Table :=
  if histCount = 0 then none
  else (recencyRecords t).find? (fun r => r.pc_plus_address == pc_plus_address)

/-- Modelled from the spec: the same two searches with the vestigial
`History_Table.count == 0` guard removed (§9 suggests omitting it). -/
def findEventToFetchNoGuard (t : Bingo_Table_Line) (pc_plus_offset : Nat) :
    Option Bingo_History_Table :=
  (recencyRecords t).find? (fun r => r.pc_plus_offset == pc_plus_offset)

/-- Modelled from the spec: guard-free variant of the exact-address search. -/
def findEventToFetchAddrNoGuard (t : Bingo_Table_Line)
    (pc_plus_address : Nat) : Option Bingo_History_Table :=
  (recencyRecords t).find? (fun r => r.pc_plus_address == pc_plus_address)

/-- The two-stage selection performed by the miss handler: exact
`pc_plus_address` match first, `pc_plus_offset` fallback second. -/
def bingo_select (histCount : Nat) (t : Bingo_Table_Line)
    (pc_plus_address pc_plus_offset : Nat) : Option Bingo_History_Table :=
  match pref_bingo_find_event_to_fetch_addr histCount t pc_plus_address with
  | some h => some h
  | none => pref_bingo_find_event_to_fetch histCount t pc_plus_offset

/-! ### Prefetch emission -/

/-- Configuration established at initialisation: `LOG2(DCACHE_LINE_SIZE)`
and the module identity `hwp_in.id` (both from outside this file's source). -/
structure BingoCfg where
  log2LineSize : Nat
  hwpId : Nat
deriving DecidableEq

/-- One request forwarded to `pref_addto_ul1req_queue`. -/
structure PrefReq where
  proc : Nat
  line_index : Nat
  reqId : Nat
deriving DecidableEq

/-- Model of `pref_bingo_prefetch`: emit one request per set footprint bit, at
`page_base + i*64` converted to the line-index unit.  `page_address` is a
page *number*. -/
def pref_bingo_prefetch (cfg : BingoCfg) (History_Entry : Bingo_History_Table)
    (proc_id : Nat) (page_address : Nat) : List PrefReq :=
  let page_base := bingo_get_page_base_from_number page_address
  ((List.range 64).filter (fun i => i ∈ History_Entry.entry.footprint)).map
    (fun i =>
      ⟨proc_id, trunc32 (trunc64 (page_base + (i <<< 6)) >>> cfg.log2LineSize),
       cfg.hwpId⟩)

/-! ### The three callbacks and the system state machine -/

/-- The module's shared state: the two associative stores. -/
structure BingoState where
  history : List (Nat × Bingo_Table_Line)
  aux : List (Nat × Aux_Entry)
deriving DecidableEq

/-- The empty stores right after initialisation. -/
def emptyState : BingoState := ⟨[], []⟩

/-- The footprint update/create block that appears verbatim in
`pref_bingo_ul1_hit` and twice in `pref_bingo_ul1_miss`: set the block's
bit in the existing live record, or create a fresh record with only that
bit set. -/
def bingo_observe (auxt : List (Nat × Aux_Entry)) (page_number block_index
    lineAddr loadPC : Nat) : List (Nat × Aux_Entry) :=
  match htLookup auxt page_number with
  | some aux_entry =>
      htReplace auxt page_number
        { aux_entry with footprint := insert block_index aux_entry.footprint }
  | none =>
      htReplace auxt page_number ⟨lineAddr, loadPC, {block_index}⟩

/-- Model of `pref_bingo_ul1_hit` (the `proc_id` and `global_hist` arguments are
unused by the C code and omitted). -/
def pref_bingo_ul1_hit (s : BingoState) (lineAddr loadPC : Nat) : BingoState :=
  let page_number := bingo_get_page_number lineAddr
  let block_index := bingo_get_block_index lineAddr
  { s with aux := bingo_observe s.aux page_number block_index lineAddr loadPC }

/-- Model of `pref_bingo_ul1_cache_evict`: commit the live footprint of the evicted
line's page (if any) into the history store, then delete the live record. -/
def pref_bingo_ul1_cache_evict (s : BingoState) (lineAddr : Nat) : BingoState :=
  let page_number := bingo_get_page_number lineAddr
  match htLookup s.aux page_number with
  | none => s
  | some aux_entry =>
      let block_address := lineAddr >>> 6
      let pc_plus_offset := trunc64 (aux_entry.pc + block_address)
      let pc_plus_address := trunc64 (aux_entry.pc + lineAddr)
      let hist_entry : Bingo_History_Table :=
        ⟨pc_plus_address, pc_plus_offset, aux_entry⟩
      let table_line := (htLookup s.history pc_plus_offset).getD zeroLine
      { history := htReplace s.history pc_plus_offset
          (add_entry table_line hist_entry),
        aux := htDelete s.aux page_number }

/-- Model of `pref_bingo_ul1_miss`: two-stage history lookup; on a match, emit
prefetches for the current page and mark the query address used; otherwise
fall back to growing the live footprint.  Returns the new state and the
emitted requests. -/
def pref_bingo_ul1_miss (cfg : BingoCfg) (s : BingoState)
    (proc_id lineAddr loadPC : Nat) : BingoState × List PrefReq :=
  let block_address := (lineAddr >>> 6) <<< 6
  let pc_plus_offset := trunc64 (loadPC + block_address)
  let pc_plus_address := trunc64 (loadPC + lineAddr)
  let page_number := bingo_get_page_number lineAddr
  let block_index := bingo_get_block_index lineAddr
  match htLookup s.history pc_plus_offset with
  | none =>
      ({ s with
         aux := bingo_observe s.aux page_number block_index lineAddr loadPC },
       [])
  | some line =>
      match bingo_select (htCount s.history) line pc_plus_address
          pc_plus_offset with
      | some hash_entry =>
          let line' := mark_used_by_address line pc_plus_address
          ({ s with history := htReplace s.history pc_plus_offset line' },
           pref_bingo_prefetch cfg hash_entry proc_id page_number)
      | none =>
          ({ s with
             aux := bingo_observe s.aux page_number block_index lineAddr
               loadPC },
           [])

/-- One host callback. -/
inductive BEvent where
  | hit (proc_id lineAddr loadPC : Nat)
  | miss (proc_id lineAddr loadPC : Nat)
  | evict (proc_id lineAddr : Nat)
deriving DecidableEq

/-- One callback invocation: new state plus emitted prefetch requests. -/
def stepOut (cfg : BingoCfg) (s : BingoState) : BEvent → BingoState × List PrefReq
  | .hit _ lineAddr loadPC => (pref_bingo_ul1_hit s lineAddr loadPC, [])
  | .miss proc_id lineAddr loadPC => pref_bingo_ul1_miss cfg s proc_id lineAddr loadPC
  | .evict _ lineAddr => (pref_bingo_ul1_cache_evict s lineAddr, [])

/-- State component of one callback invocation. -/
def step (cfg : BingoCfg) (s : BingoState) (e : BEvent) : BingoState :=
  (stepOut cfg s e).1

/-- Run a callback sequence from the empty stores. -/
def run (cfg : BingoCfg) (evs : List BEvent) : BingoState :=
  evs.foldl (step cfg) emptyState

/-- Well-formedness of a bucket: the recency order is a permutation of
exactly the occupied slot indices. -/
def WFLine (t : Bingo_Table_Line) : Prop :=
  t.usage_order.Perm (List.range t.line.length)

instance (t : Bingo_Table_Line) : Decidable (WFLine t) :=
  inferInstanceAs (Decidable (t.usage_order.Perm (List.range t.line.length)))

/-- One operation on a single history bucket. -/
inductive BOp where
  | add (e : Bingo_History_Table)
  | markUsed (a : Nat)
deriving DecidableEq

/-- Apply one bucket operation. -/
def applyBOp (t : Bingo_Table_Line) : BOp → Bingo_Table_Line
  | .add e => add_entry t e
  | .markUsed a => mark_used_by_address t a

/-- Run a sequence of bucket operations from the zero-initialised bucket. -/
def runBucket (ops : List BOp) : Bingo_Table_Line :=
  ops.foldl applyBOp zeroLine

/-! ### Ghost observer for footprint accumulation.

`learnStep` is modelled from the spec's amended footprint property: it
records, per page, the blocks observed by "learning" events (hits, and
misses on which the lookup selected no record), and resets when the live
record is committed away by an eviction. -/

/-- Whether a miss in state `s` selects a history record (the condition
under which the code prefetches instead of growing the footprint). -/
def missSelectsRecord (s : BingoState) (lineAddr loadPC : Nat) : Bool :=
  let pc_plus_offset := trunc64 (loadPC + ((lineAddr >>> 6) <<< 6))
  let pc_plus_address := trunc64 (loadPC + lineAddr)
  match htLookup s.history pc_plus_offset with
  | none => false
  | some line =>
      (bingo_select (htCount s.history) line pc_plus_address
        pc_plus_offset).isSome

/-- Ghost update: the set of blocks observed for page `p` by learning
events since the live record's creation (`none` = page untracked). -/
def learnStep (s : BingoState) (ev : BEvent) (p : Nat)
    (g : Option (Finset Nat)) : Option (Finset Nat) :=
  match ev with
  | .hit _ a _ =>
      if bingo_get_page_number a = p then
        some (insert (bingo_get_block_index a) (g.getD ∅))
      else g
  | .miss _ a pc =>
      if bingo_get_page_number a = p ∧ missSelectsRecord s a pc = false then
        some (insert (bingo_get_block_index a) (g.getD ∅))
      else g
  | .evict _ a =>
      if bingo_get_page_number a = p ∧ (htLookup s.aux p).isSome = true then
        none
      else g

/-- Ghost run: fold `learnStep` alongside the real state machine. -/
def ghostRun (cfg : BingoCfg) (evs : List BEvent) (p : Nat) :
    Option (Finset Nat) :=
  (evs.foldl (fun sg ev => (step cfg sg.1 ev, learnStep sg.1 ev p sg.2))
    (emptyState, (none : Option (Finset Nat)))).2

/-- A committed record used in the C4 scenario (exact key 100). -/
def recA : Bingo_History_Table := ⟨100, 50, ⟨0, 0, ∅⟩⟩

/-- A committed record used in the C4 scenario (exact key 999). -/
def recB : Bingo_History_Table := ⟨999, 50, ⟨0, 0, ∅⟩⟩

/-- A full bucket of sixteen records with pairwise distinct exact keys,
slot `i` holding key `i`, recency order `[15, ..., 0]`. -/
def wbFull : Bingo_Table_Line :=
  ⟨(List.range 16).map (fun i => ⟨i, 0, ⟨0, 0, ∅⟩⟩),
   (List.range 16).reverse⟩


/-! ### Branch lemmas: the handlers reduced on each control path -/

theorem evict_no_aux (s : BingoState) (a : Nat)
    (he : htLookup s.aux (bingo_get_page_number a) = none) :
    pref_bingo_ul1_cache_evict s a = s := by
  simp only [pref_bingo_ul1_cache_evict]
  rw [he]

theorem evict_commit (s : BingoState) (a : Nat) (e : Aux_Entry)
    (he : htLookup s.aux (bingo_get_page_number a) = some e) :
    pref_bingo_ul1_cache_evict s a =
      { history := htReplace s.history (trunc64 (e.pc + (a >>> 6))) (add_entry ((htLookup s.history (trunc64 (e.pc + (a >>> 6)))).getD zeroLine) ⟨trunc64 (e.pc + a), trunc64 (e.pc + (a >>> 6)), e⟩),
        aux := htDelete s.aux (bingo_get_page_number a) } := by
  simp only [pref_bingo_ul1_cache_evict]
  rw [he]

theorem miss_cold (cfg : BingoCfg) (s : BingoState) (proc_id a pc : Nat)
    (hl : htLookup s.history (trunc64 (pc + ((a >>> 6) <<< 6))) = none) :
    pref_bingo_ul1_miss cfg s proc_id a pc =
      ({ s with aux := bingo_observe s.aux (bingo_get_page_number a) (bingo_get_block_index a) a pc }, []) := by
  simp only [pref_bingo_ul1_miss]
  rw [hl]

theorem miss_match (cfg : BingoCfg) (s : BingoState) (proc_id a pc : Nat)
    (line : Bingo_Table_Line) (h : Bingo_History_Table)
    (hl : htLookup s.history (trunc64 (pc + ((a >>> 6) <<< 6))) = some line)
    (hsel : bingo_select (htCount s.history) line (trunc64 (pc + a))
      (trunc64 (pc + ((a >>> 6) <<< 6))) = some h) :
    pref_bingo_ul1_miss cfg s proc_id a pc =
      ({ s with history := htReplace s.history (trunc64 (pc + ((a >>> 6) <<< 6))) (mark_used_by_address line (trunc64 (pc + a))) },
       pref_bingo_prefetch cfg h proc_id (bingo_get_page_number a)) := by
  simp only [pref_bingo_ul1_miss]
  rw [hl]
  simp only
  rw [hsel]

theorem miss_no_match (cfg : BingoCfg) (s : BingoState) (proc_id a pc : Nat)
    (line : Bingo_Table_Line)
    (hl : htLookup s.history (trunc64 (pc + ((a >>> 6) <<< 6))) = some line)
    (hsel : bingo_select (htCount s.history) line (trunc64 (pc + a))
      (trunc64 (pc + ((a >>> 6) <<< 6))) = none) :
    pref_bingo_ul1_miss cfg s proc_id a pc =
      ({ s with aux := bingo_observe s.aux (bingo_get_page_number a) (bingo_get_block_index a) a pc }, []) := by
  simp only [pref_bingo_ul1_miss]
  rw [hl]
  simp only
  rw [hsel]

/-! ### Lemmas about the associative-store model -/

theorem htLookup_nil {α : Type} (k : Nat) :
    htLookup ([] : List (Nat × α)) k = none := rfl

theorem htLookup_cons {α : Type} (a : Nat) (b : α) (t : List (Nat × α))
    (k : Nat) :
    htLookup ((a, b) :: t) k = if a = k then some b else htLookup t k := by
  by_cases h : a = k <;> simp [htLookup, List.find?_cons, h]

theorem htLookup_map_overwrite {α : Type} (t : List (Nat × α)) (k : Nat)
    (v : α) (h : (htLookup t k).isSome = true) :
    htLookup (t.map (fun p => if p.1 == k then (k, v) else p)) k = some v := by
  induction t with
  | nil => simp [htLookup] at h
  | cons p t ih =>
    obtain ⟨a, b⟩ := p
    rw [List.map_cons]
    by_cases hak : a = k
    · subst hak
      rw [if_pos (by simp), htLookup_cons, if_pos rfl]
    · rw [if_neg (by simp [hak]), htLookup_cons, if_neg hak]
      rw [htLookup_cons, if_neg hak] at h
      exact ih h

theorem htLookup_map_overwrite_ne {α : Type} (t : List (Nat × α))
    (k k' : Nat) (v : α) (h : k' ≠ k) :
    htLookup (t.map (fun p => if p.1 == k then (k, v) else p)) k' =
      htLookup t k' := by
  induction t with
  | nil => rfl
  | cons p t ih =>
    obtain ⟨a, b⟩ := p
    rw [List.map_cons]
    by_cases hak : a = k
    · subst hak
      rw [if_pos (by simp), htLookup_cons, if_neg (Ne.symm h),
        htLookup_cons, if_neg (Ne.symm h)]
      exact ih
    · rw [if_neg (by simp [hak]), htLookup_cons, htLookup_cons]
      by_cases hak' : a = k'
      · rw [if_pos hak', if_pos hak']
      · rw [if_neg hak', if_neg hak']
        exact ih

theorem htLookup_append_none {α : Type} (t₁ t₂ : List (Nat × α)) (k : Nat)
    (h : htLookup t₁ k = none) :
    htLookup (t₁ ++ t₂) k = htLookup t₂ k := by
  induction t₁ with
  | nil => rfl
  | cons p t ih =>
    obtain ⟨a, b⟩ := p
    by_cases hak : a = k
    · simp [htLookup_cons, hak] at h
    · rw [List.cons_append, htLookup_cons, if_neg hak]
      rw [htLookup_cons, if_neg hak] at h
      exact ih h

theorem htLookup_htReplace_self {α : Type} (t : List (Nat × α)) (k : Nat)
    (v : α) : htLookup (htReplace t k v) k = some v := by
  unfold htReplace
  by_cases hs : (htLookup t k).isSome = true
  · rw [if_pos hs]
    exact htLookup_map_overwrite t k v hs
  · rw [if_neg hs]
    have hn : htLookup t k = none := by
      cases hx : htLookup t k
      · rfl
      · simp [hx] at hs
    rw [htLookup_append_none t _ k hn, htLookup_cons, if_pos rfl]

theorem htLookup_append_singleton_ne {α : Type} (t : List (Nat × α))
    (k k' : Nat) (v : α) (h : k' ≠ k) :
    htLookup (t ++ [(k, v)]) k' = htLookup t k' := by
  induction t with
  | nil => simp [htLookup_cons, Ne.symm h, htLookup_nil]
  | cons p t ih =>
    obtain ⟨a, b⟩ := p
    rw [List.cons_append, htLookup_cons, htLookup_cons, ih]

theorem htLookup_htReplace_ne {α : Type} (t : List (Nat × α)) (k k' : Nat)
    (v : α) (h : k' ≠ k) :
    htLookup (htReplace t k v) k' = htLookup t k' := by
  unfold htReplace
  by_cases hs : (htLookup t k).isSome = true
  · rw [if_pos hs]
    exact htLookup_map_overwrite_ne t k k' v h
  · rw [if_neg hs]
    exact htLookup_append_singleton_ne t k k' v h

theorem htLookup_htDelete_self {α : Type} (t : List (Nat × α)) (k : Nat) :
    htLookup (htDelete t k) k = none := by
  induction t with
  | nil => rfl
  | cons p t ih =>
    obtain ⟨a, b⟩ := p
    by_cases hak : a = k
    · simpa [htDelete, List.filter_cons, hak] using ih
    · simpa [htDelete, List.filter_cons, hak, htLookup_cons] using ih

theorem htLookup_htDelete_ne {α : Type} (t : List (Nat × α)) (k k' : Nat)
    (h : k' ≠ k) :
    htLookup (htDelete t k) k' = htLookup t k' := by
  induction t with
  | nil => rfl
  | cons p t ih =>
    obtain ⟨a, b⟩ := p
    by_cases hak : a = k
    · subst hak
      simpa [htDelete, List.filter_cons, htLookup_cons, Ne.symm h] using ih
    · by_cases hak' : a = k'
      · subst hak'
        simp [htDelete, List.filter_cons, hak, htLookup_cons, h]
      · simpa [htDelete, List.filter_cons, hak, htLookup_cons, hak'] using ih

theorem htCount_ne_zero {α : Type} (t : List (Nat × α)) (k : Nat) (v : α)
    (h : htLookup t k = some v) : htCount t ≠ 0 := by
  cases t with
  | nil => simp [htLookup] at h
  | cons p t => simp [htCount]

/-! ### Generic lemmas about first-match scans -/

theorem find?_first {α : Type} (p : α → Bool) (d : α) :
    ∀ (l : List α) (i : Nat), i < l.length → p (l.getD i d) = true →
      (∀ j, j < i → p (l.getD j d) = false) → l.find? p = some (l.getD i d)
  | [], i, hi, _, _ => absurd hi (by simp)
  | a :: l, 0, _, hp, _ => by
      have hgd : (a :: l).getD 0 d = a := rfl
      rw [hgd] at hp ⊢
      rw [List.find?_cons, hp]
  | a :: l, i + 1, hi, hp, hfirst => by
      have pa : p a = false := hfirst 0 (Nat.succ_pos i)
      rw [List.find?_cons, pa]
      have hgd : (a :: l).getD (i + 1) d = l.getD i d := rfl
      rw [hgd] at hp ⊢
      exact find?_first p d l i (by simpa using hi) hp
        (fun j hj => hfirst (j + 1) (by omega))

theorem findIdxA_eq_none {α : Type} (p : α → Bool) (l : List α) :
    findIdxA p l = none ↔ ∀ x ∈ l, p x = false := by
  induction l with
  | nil => simp [findIdxA]
  | cons a l ih =>
    by_cases hpa : p a = true
    · simp [findIdxA, hpa]
    · have hpa' : p a = false := by simpa using hpa
      simp [findIdxA, hpa', ih]

theorem findIdxA_some {α : Type} (p : α → Bool) (d : α) :
    ∀ (l : List α) (i : Nat), findIdxA p l = some i →
      i < l.length ∧ p (l.getD i d) = true ∧
        ∀ j, j < i → p (l.getD j d) = false
  | [], i, h => by simp [findIdxA] at h
  | a :: l, i, h => by
      by_cases hpa : p a = true
      · simp [findIdxA, hpa] at h
        subst h
        exact ⟨Nat.succ_pos _, by simpa [List.getD], fun j hj => absurd hj (by omega)⟩
      · have hpa' : p a = false := by simpa using hpa
        simp [findIdxA, hpa'] at h
        obtain ⟨i', hi', rfl⟩ := h
        obtain ⟨h1, h2, h3⟩ := findIdxA_some p d l i' hi'
        refine ⟨by simpa using Nat.succ_lt_succ h1, by simpa [List.getD] using h2, ?_⟩
        intro j hj
        cases j with
        | zero => exact hpa'
        | succ j => exact h3 j (by omega)

/-! ### Lemmas about recency order and bucket well-formedness -/

theorem recencyRecords_length (t : Bingo_Table_Line) :
    (recencyRecords t).length = t.usage_order.length := List.length_map _ _

theorem recencyRecords_getD (t : Bingo_Table_Line) (i : Nat)
    (h : i < t.usage_order.length) :
    (recencyRecords t).getD i dfltRec =
      t.line.getD (t.usage_order.getD i 0) dfltRec := by
  unfold recencyRecords
  rw [List.getD_eq_getElem _ _ (by simpa using h), List.getElem_map,
    List.getD_eq_getElem _ _ h]

theorem WFLine.uo_length {t : Bingo_Table_Line} (h : WFLine t) :
    t.usage_order.length = t.line.length := by
  simpa using h.length_eq

theorem WFLine.mem_lt {t : Bingo_Table_Line} (h : WFLine t) {x : Nat}
    (hx : x ∈ t.usage_order) : x < t.line.length := by
  have := h.mem_iff.mp hx
  simpa [List.mem_range] using this

theorem WFLine.mem_of_lt {t : Bingo_Table_Line} (h : WFLine t) {x : Nat}
    (hx : x < t.line.length) : x ∈ t.usage_order := by
  exact h.mem_iff.mpr (by simpa [List.mem_range] using hx)

theorem mem_recencyRecords_of_slot {t : Bingo_Table_Line} (h : WFLine t)
    {i : Nat} (hi : i < t.line.length) :
    t.line.getD i dfltRec ∈ recencyRecords t :=
  List.mem_map_of_mem _ (h.mem_of_lt hi)

theorem zeroLine_WF : WFLine zeroLine := by
  unfold WFLine zeroLine
  simp

theorem add_entry_WF (t : Bingo_Table_Line) (e : Bingo_History_Table)
    (h : WFLine t) (hle : t.line.length ≤ 16) :
    WFLine (add_entry t e) ∧ (add_entry t e).line.length ≤ 16 := by
  unfold add_entry
  by_cases hlt : t.line.length < 16
  · rw [if_pos hlt]
    constructor
    · show (t.line.length :: t.usage_order).Perm
        (List.range (t.line ++ [e]).length)
      rw [List.length_append, List.length_singleton, List.range_succ]
      exact ((h.cons t.line.length).trans
        (List.perm_append_singleton _ _).symm)
    · simp only [List.length_append, List.length_singleton]
      omega
  · have h16 : t.line.length = 16 := le_antisymm hle (not_lt.mp hlt)
    rw [if_neg hlt]
    have hlen : t.usage_order.length = 16 := by rw [h.uo_length, h16]
    have h15 : (15 : Nat) < t.usage_order.length := by omega
    have hidx : t.usage_order.getD 15 0 = t.usage_order[15] :=
      List.getD_eq_getElem _ _ h15
    have hdecomp : t.usage_order =
        t.usage_order.take 15 ++ [t.usage_order[15]] := by
      conv_lhs => rw [← List.take_append_drop 15 t.usage_order]
      rw [List.drop_eq_getElem_cons h15]
      congr 1
      have : t.usage_order.drop 16 = [] := by
        rw [← hlen]
        exact List.drop_length _
      rw [this]
    constructor
    · show (t.usage_order.getD 15 0 :: t.usage_order.take 15).Perm
        (List.range (t.line.set (t.usage_order.getD 15 0) e).length)
      rw [List.length_set, hidx]
      refine List.Perm.trans ?_ h
      conv_rhs => rw [hdecomp]
      exact (List.perm_append_singleton _ _).symm
    · simpa [List.length_set] using hle

theorem mark_used_WF (t : Bingo_Table_Line) (a : Nat) (h : WFLine t)
    (hle : t.line.length ≤ 16) :
    WFLine (mark_used_by_address t a) ∧
      (mark_used_by_address t a).line.length ≤ 16 := by
  unfold mark_used_by_address
  cases hf : findIdxA (fun r => r.pc_plus_address == a) t.line with
  | none => exact ⟨h, hle⟩
  | some fi =>
    refine ⟨?_, hle⟩
    show (promote t.usage_order fi).Perm (List.range t.line.length)
    unfold promote
    by_cases hm : fi ∈ t.usage_order
    · rw [if_pos hm]
      exact (List.perm_cons_erase hm).symm.trans h
    · rw [if_neg hm]
      exact h

/-! ### Bucket-operation sequences (for the bounded-LRU invariant) -/

theorem foldl_applyBOp_inv (ops : List BOp) :
    ∀ t : Bingo_Table_Line, WFLine t → t.line.length ≤ 16 →
      WFLine (ops.foldl applyBOp t) ∧ (ops.foldl applyBOp t).line.length ≤ 16 := by
  induction ops with
  | nil => exact fun t h hle => ⟨h, hle⟩
  | cons op ops ih =>
    intro t h hle
    rw [List.foldl_cons]
    cases op with
    | add e =>
      obtain ⟨h', hle'⟩ := add_entry_WF t e h hle
      exact ih _ h' hle'
    | markUsed a =>
      obtain ⟨h', hle'⟩ := mark_used_WF t a h hle
      exact ih _ h' hle'

/-! ### Effect of the footprint update/create block on `Aux_Storage` -/

theorem htLookup_bingo_observe_self (auxt : List (Nat × Aux_Entry))
    (pn bi a pc : Nat) :
    htLookup (bingo_observe auxt pn bi a pc) pn =
      some (match htLookup auxt pn with
        | some e => { e with footprint := insert bi e.footprint }
        | none => ⟨a, pc, {bi}⟩) := by
  unfold bingo_observe
  cases h : htLookup auxt pn <;> simp [h, htLookup_htReplace_self]

theorem htLookup_bingo_observe_ne (auxt : List (Nat × Aux_Entry))
    (pn bi a pc q : Nat) (h : q ≠ pn) :
    htLookup (bingo_observe auxt pn bi a pc) q = htLookup auxt q := by
  unfold bingo_observe
  cases hx : htLookup auxt pn <;>
    simp [hx, htLookup_htReplace_ne _ _ _ _ h]

theorem learnStep_correct (cfg : BingoCfg) (s : BingoState) (ev : BEvent)
    (p : Nat) :
    (htLookup (step cfg s ev).aux p).map (·.footprint) =
      learnStep s ev p ((htLookup s.aux p).map (·.footprint)) := by
  cases ev with
  | hit proc a pc =>
    show (htLookup (bingo_observe s.aux (bingo_get_page_number a)
        (bingo_get_block_index a) a pc) p).map (·.footprint) =
      (if bingo_get_page_number a = p then
        some (insert (bingo_get_block_index a)
          (((htLookup s.aux p).map (·.footprint)).getD ∅))
      else (htLookup s.aux p).map (·.footprint))
    by_cases hp : bingo_get_page_number a = p
    · rw [if_pos hp, ← hp, htLookup_bingo_observe_self]
      cases he : htLookup s.aux (bingo_get_page_number a) <;> simp [he]
    · rw [if_neg hp,
        htLookup_bingo_observe_ne _ _ _ _ _ _ (fun hq => hp hq.symm)]
  | evict proc a =>
    show (htLookup (pref_bingo_ul1_cache_evict s a).aux p).map (·.footprint) =
      (if bingo_get_page_number a = p ∧ (htLookup s.aux p).isSome = true then
        none
      else (htLookup s.aux p).map (·.footprint))
    cases he : htLookup s.aux (bingo_get_page_number a) with
    | none =>
      rw [evict_no_aux s a he]
      by_cases hp : bingo_get_page_number a = p
      · rw [← hp, if_neg (fun hc => by rw [he] at hc; simp at hc)]
      · rw [if_neg (fun hc => hp hc.1)]
    | some e =>
      rw [evict_commit s a e he]
      by_cases hp : bingo_get_page_number a = p
      · rw [← hp, if_pos ⟨rfl, by rw [he]; rfl⟩]
        show (htLookup (htDelete s.aux (bingo_get_page_number a))
          (bingo_get_page_number a)).map (·.footprint) = none
        rw [htLookup_htDelete_self]
        rfl
      · rw [if_neg (fun hc => hp hc.1)]
        show (htLookup (htDelete s.aux (bingo_get_page_number a)) p).map
          (·.footprint) = (htLookup s.aux p).map (·.footprint)
        rw [htLookup_htDelete_ne _ _ _ (fun hq => hp hq.symm)]
  | miss proc a pc =>
    show (htLookup (pref_bingo_ul1_miss cfg s proc a pc).1.aux p).map
        (·.footprint) =
      (if bingo_get_page_number a = p ∧ missSelectsRecord s a pc = false then
        some (insert (bingo_get_block_index a)
          (((htLookup s.aux p).map (·.footprint)).getD ∅))
      else (htLookup s.aux p).map (·.footprint))
    cases hl : htLookup s.history (trunc64 (pc + ((a >>> 6) <<< 6))) with
    | none =>
      have hms : missSelectsRecord s a pc = false := by
        simp only [missSelectsRecord]
        rw [hl]
      rw [miss_cold cfg s proc a pc hl]
      by_cases hp : bingo_get_page_number a = p
      · rw [if_pos ⟨hp, hms⟩, ← hp]
        show (htLookup (bingo_observe s.aux (bingo_get_page_number a)
            (bingo_get_block_index a) a pc) (bingo_get_page_number a)).map
          (·.footprint) = _
        rw [htLookup_bingo_observe_self]
        cases he : htLookup s.aux (bingo_get_page_number a) <;> simp [he]
      · rw [if_neg (fun hc => hp hc.1)]
        show (htLookup (bingo_observe s.aux (bingo_get_page_number a)
            (bingo_get_block_index a) a pc) p).map (·.footprint) = _
        rw [htLookup_bingo_observe_ne _ _ _ _ _ _ (fun hq => hp hq.symm)]
    | some line =>
      cases hsel : bingo_select (htCount s.history) line
          (trunc64 (pc + a)) (trunc64 (pc + ((a >>> 6) <<< 6))) with
      | some h =>
        have hms : missSelectsRecord s a pc = true := by
          simp only [missSelectsRecord]
          rw [hl]
          simp only
          rw [hsel]
          rfl
        rw [miss_match cfg s proc a pc line h hl hsel]
        rw [if_neg (fun hc => by rw [hms] at hc; simp at hc)]
      | none =>
        have hms : missSelectsRecord s a pc = false := by
          simp only [missSelectsRecord]
          rw [hl]
          simp only
          rw [hsel]
          rfl
        rw [miss_no_match cfg s proc a pc line hl hsel]
        by_cases hp : bingo_get_page_number a = p
        · rw [if_pos ⟨hp, hms⟩, ← hp]
          show (htLookup (bingo_observe s.aux (bingo_get_page_number a)
              (bingo_get_block_index a) a pc) (bingo_get_page_number a)).map
            (·.footprint) = _
          rw [htLookup_bingo_observe_self]
          cases he : htLookup s.aux (bingo_get_page_number a) <;> simp [he]
        · rw [if_neg (fun hc => hp hc.1)]
          show (htLookup (bingo_observe s.aux (bingo_get_page_number a)
              (bingo_get_block_index a) a pc) p).map (·.footprint) = _
          rw [htLookup_bingo_observe_ne _ _ _ _ _ _ (fun hq => hp hq.symm)]

theorem ghostRun_correct (cfg : BingoCfg) (evs : List BEvent) (p : Nat) :
    (htLookup (run cfg evs).aux p).map (·.footprint) = ghostRun cfg evs p := by
  suffices h : ∀ (s : BingoState) (g : Option (Finset Nat)),
      (htLookup s.aux p).map (·.footprint) = g →
      (htLookup (evs.foldl (step cfg) s).aux p).map (·.footprint) =
        (evs.foldl
          (fun sg ev => (step cfg sg.1 ev, learnStep sg.1 ev p sg.2))
          (s, g)).2 by
    exact h emptyState none rfl
  induction evs with
  | nil => intro s g hg; simpa using hg
  | cons ev evs ih =>
    intro s g hg
    rw [List.foldl_cons, List.foldl_cons]
    exact ih (step cfg s ev) (learnStep s ev p g)
      (by rw [learnStep_correct, hg])

theorem learnStep_mono (s : BingoState) (ev : BEvent) (p : Nat)
    (fp X : Finset Nat) (h : learnStep s ev p (some fp) = some X) :
    fp ⊆ X := by
  cases ev with
  | hit proc a pc =>
    have h' : (if bingo_get_page_number a = p then
        some (insert (bingo_get_block_index a) ((some fp).getD ∅))
      else some fp) = some X := h
    by_cases hp : bingo_get_page_number a = p
    · rw [if_pos hp] at h'
      obtain rfl : insert (bingo_get_block_index a) fp = X := by
        simpa using h'
      exact Finset.subset_insert _ _
    · rw [if_neg hp] at h'
      obtain rfl : fp = X := by simpa using h'
      exact Finset.Subset.refl _
  | miss proc a pc =>
    have h' : (if bingo_get_page_number a = p ∧
        missSelectsRecord s a pc = false then
        some (insert (bingo_get_block_index a) ((some fp).getD ∅))
      else some fp) = some X := h
    by_cases hp : bingo_get_page_number a = p ∧ missSelectsRecord s a pc = false
    · rw [if_pos hp] at h'
      obtain rfl : insert (bingo_get_block_index a) fp = X := by
        simpa using h'
      exact Finset.subset_insert _ _
    · rw [if_neg hp] at h'
      obtain rfl : fp = X := by simpa using h'
      exact Finset.Subset.refl _
  | evict proc a =>
    have h' : (if bingo_get_page_number a = p ∧
        (htLookup s.aux p).isSome = true then none else some fp) = some X := h
    by_cases hp : bingo_get_page_number a = p ∧
        (htLookup s.aux p).isSome = true
    · rw [if_pos hp] at h'
      simp at h'
    · rw [if_neg hp] at h'
      obtain rfl : fp = X := by simpa using h'
      exact Finset.Subset.refl _

/-! ### Claim theorems -/

/-- C9: when the searched bucket was obtained by a successful History-Store
lookup, the store is non-empty, so the `History_Table.count == 0`
early-return branch of both search functions is unreachable and each
returns the same result as the guard-free variant. -/
theorem bingo_C9 (t : List (Nat × Bingo_Table_Line)) (k : Nat)
    (tl : Bingo_Table_Line) (hl : htLookup t k = some tl) :
    htCount t ≠ 0 ∧
    (∀ q, pref_bingo_find_event_to_fetch (htCount t) tl q =
      findEventToFetchNoGuard tl q) ∧
    (∀ q, pref_bingo_find_event_to_fetch_addr (htCount t) tl q =
      findEventToFetchAddrNoGuard tl q) := by
  have hc := htCount_ne_zero t k tl hl
  refine ⟨hc, fun q => ?_, fun q => ?_⟩
  · unfold pref_bingo_find_event_to_fetch findEventToFetchNoGuard
    rw [if_neg hc]
  · unfold pref_bingo_find_event_to_fetch_addr findEventToFetchAddrNoGuard
    rw [if_neg hc]

/-- Witness for C9 at a concrete one-entry store. -/
theorem bingo_C9_witness :
    htCount [(5, zeroLine)] ≠ 0 ∧
    pref_bingo_find_event_to_fetch (htCount [(5, zeroLine)]) zeroLine 7 =
      findEventToFetchNoGuard zeroLine 7 ∧
    pref_bingo_find_event_to_fetch_addr (htCount [(5, zeroLine)]) zeroLine 7 =
      findEventToFetchAddrNoGuard zeroLine 7 := by
  have h := bingo_C9 [(5, zeroLine)] 5 zeroLine (by decide)
  exact ⟨h.1, h.2.1 7, h.2.2 7⟩

/-- C10: on a miss whose lookup selects a record (so prefetches are
emitted), `Aux_Storage` is left completely unchanged. -/
theorem bingo_C10 (cfg : BingoCfg) (s : BingoState) (proc_id a pc : Nat)
    (line : Bingo_Table_Line) (h : Bingo_History_Table)
    (hl : htLookup s.history (trunc64 (pc + ((a >>> 6) <<< 6))) = some line)
    (hsel : bingo_select (htCount s.history) line (trunc64 (pc + a))
      (trunc64 (pc + ((a >>> 6) <<< 6))) = some h) :
    (pref_bingo_ul1_miss cfg s proc_id a pc).1.aux = s.aux := by
  rw [miss_match cfg s proc_id a pc line h hl hsel]

/-- Witness for C10 at a concrete matching miss. -/
theorem bingo_C10_witness :
    (pref_bingo_ul1_miss ⟨6, 0⟩
      ⟨[(0, ⟨[⟨0, 0, ⟨0, 0, ∅⟩⟩], [0]⟩)], [(99, ⟨7, 8, ∅⟩)]⟩ 0 0 0).1.aux =
      [(99, (⟨7, 8, ∅⟩ : Aux_Entry))] := by
  exact bingo_C10 ⟨6, 0⟩ ⟨[(0, ⟨[⟨0, 0, ⟨0, 0, ∅⟩⟩], [0]⟩)], [(99, ⟨7, 8, ∅⟩)]⟩
    0 0 0 ⟨[⟨0, 0, ⟨0, 0, ∅⟩⟩], [0]⟩ ⟨0, 0, ⟨0, 0, ∅⟩⟩ (by decide) (by decide)

theorem shiftLeft_six (i : Nat) : i <<< 6 = i * 64 := by
  rw [Nat.shiftLeft_eq]

/-- C8: the emitter issues one request per set footprint bit, at
`page_base(current page) + i*64` converted to the line-index unit, and no
others; at most 64 requests; and the miss handler invokes it with the
current miss's page number. -/
theorem bingo_C8 (cfg : BingoCfg) (he : Bingo_History_Table)
    (proc_id pn : Nat) :
    (pref_bingo_prefetch cfg he proc_id pn).length ≤ 64 ∧
    (∀ r : PrefReq, r ∈ pref_bingo_prefetch cfg he proc_id pn ↔
      ∃ i, i < 64 ∧ i ∈ he.entry.footprint ∧
        r = ⟨proc_id, trunc32 (trunc64 (bingo_get_page_base_from_number pn + i * 64) >>> cfg.log2LineSize), cfg.hwpId⟩) ∧
    (∀ (s : BingoState) (a pc : Nat) (line : Bingo_Table_Line)
        (h : Bingo_History_Table),
      htLookup s.history (trunc64 (pc + ((a >>> 6) <<< 6))) = some line →
      bingo_select (htCount s.history) line (trunc64 (pc + a))
        (trunc64 (pc + ((a >>> 6) <<< 6))) = some h →
      (pref_bingo_ul1_miss cfg s proc_id a pc).2 =
        pref_bingo_prefetch cfg h proc_id (bingo_get_page_number a)) := by
  refine ⟨?_, fun r => ?_, fun s a pc line h hl hsel => ?_⟩
  · unfold pref_bingo_prefetch
    simp only [List.length_map]
    calc ((List.range 64).filter
        (fun i => decide (i ∈ he.entry.footprint))).length
        ≤ (List.range 64).length := List.length_filter_le _ _
      _ = 64 := List.length_range 64
  · unfold pref_bingo_prefetch
    simp only [List.mem_map, List.mem_filter, List.mem_range,
      decide_eq_true_eq, shiftLeft_six]
    constructor
    · rintro ⟨i, ⟨hi, hf⟩, rfl⟩
      exact ⟨i, hi, hf, rfl⟩
    · rintro ⟨i, hi, hf, rfl⟩
      exact ⟨i, ⟨hi, hf⟩, rfl⟩
  · rw [miss_match cfg s proc_id a pc line h hl hsel]

/-- Witness for C8: a concrete record with footprint `{3}` on page 7. -/
theorem bingo_C8_witness :
    (pref_bingo_prefetch ⟨6, 0⟩ ⟨0, 0, ⟨0, 0, {3}⟩⟩ 1 7).length ≤ 64 ∧
    ((⟨1, trunc32 (trunc64 (bingo_get_page_base_from_number 7 + 3 * 64) >>> 6), 0⟩ : PrefReq) ∈
      pref_bingo_prefetch ⟨6, 0⟩ ⟨0, 0, ⟨0, 0, {3}⟩⟩ 1 7 ↔
      ∃ i, i < 64 ∧ i ∈ (⟨0, 0, ⟨0, 0, ({3} : Finset Nat)⟩⟩ : Bingo_History_Table).entry.footprint ∧
        (⟨1, trunc32 (trunc64 (bingo_get_page_base_from_number 7 + 3 * 64) >>> 6), 0⟩ : PrefReq) =
          ⟨1, trunc32 (trunc64 (bingo_get_page_base_from_number 7 + i * 64) >>> 6), 0⟩) ∧
    (pref_bingo_ul1_miss ⟨6, 0⟩
      ⟨[(0, ⟨[⟨0, 0, ⟨0, 0, {3}⟩⟩], [0]⟩)], []⟩ 1 0 0).2 =
      pref_bingo_prefetch ⟨6, 0⟩ ⟨0, 0, ⟨0, 0, {3}⟩⟩ 1
        (bingo_get_page_number 0) := by
  have h := bingo_C8 ⟨6, 0⟩ ⟨0, 0, ⟨0, 0, {3}⟩⟩ 1 7
  refine ⟨h.1, h.2.1 _, ?_⟩
  exact (bingo_C8 ⟨6, 0⟩ ⟨0, 0, ⟨0, 0, {3}⟩⟩ 1 0).2.2
    ⟨[(0, ⟨[⟨0, 0, ⟨0, 0, {3}⟩⟩], [0]⟩)], []⟩ 0 0
    ⟨[⟨0, 0, ⟨0, 0, {3}⟩⟩], [0]⟩ ⟨0, 0, ⟨0, 0, {3}⟩⟩ (by decide) (by decide)

theorem evict_foldl_noop (P : Nat) :
    ∀ (ls : List Nat) (s₁ : BingoState),
      (∀ l ∈ ls, bingo_get_page_number l = P) →
      htLookup s₁.aux P = none →
      ls.foldl pref_bingo_ul1_cache_evict s₁ = s₁
  | [], _, _, _ => rfl
  | l :: ls, s₁, hls, hn => by
    rw [List.foldl_cons, evict_no_aux s₁ l (by
      rw [hls l (List.mem_cons_self l ls)]
      exact hn)]
    exact evict_foldl_noop P ls s₁
      (fun l' hl' => hls l' (List.mem_cons_of_mem l hl')) hn

/-- C5: when the evicted line's page has a live record, the first eviction
inserts exactly one committed record (built from the live record) into the
bucket at the signature key, leaves every other bucket untouched, deletes
the page's Aux entry (leaving other pages untouched), and every subsequent
eviction of lines in the same page is a no-op. -/
theorem bingo_C5 (s : BingoState) (a : Nat) (e : Aux_Entry)
    (he : htLookup s.aux (bingo_get_page_number a) = some e) :
    htLookup (pref_bingo_ul1_cache_evict s a).aux (bingo_get_page_number a) =
      none ∧
    (∀ q, q ≠ bingo_get_page_number a →
      htLookup (pref_bingo_ul1_cache_evict s a).aux q = htLookup s.aux q) ∧
    htLookup (pref_bingo_ul1_cache_evict s a).history
        (trunc64 (e.pc + (a >>> 6))) =
      some (add_entry
        ((htLookup s.history (trunc64 (e.pc + (a >>> 6)))).getD zeroLine)
        ⟨trunc64 (e.pc + a), trunc64 (e.pc + (a >>> 6)), e⟩) ∧
    (∀ k, k ≠ trunc64 (e.pc + (a >>> 6)) →
      htLookup (pref_bingo_ul1_cache_evict s a).history k =
        htLookup s.history k) ∧
    (∀ ls : List Nat,
      (∀ l ∈ ls, bingo_get_page_number l = bingo_get_page_number a) →
      ls.foldl pref_bingo_ul1_cache_evict (pref_bingo_ul1_cache_evict s a) =
        pref_bingo_ul1_cache_evict s a) := by
  rw [evict_commit s a e he]
  refine ⟨htLookup_htDelete_self _ _,
    fun q hq => htLookup_htDelete_ne _ _ _ hq,
    htLookup_htReplace_self _ _ _,
    fun k hk => htLookup_htReplace_ne _ _ _ _ hk,
    fun ls hls => evict_foldl_noop _ ls _ hls (htLookup_htDelete_self _ _)⟩

/-- Witness for C5: page 1 is live with footprint `{0}`; evict line 4096
twice. -/
theorem bingo_C5_witness :
    htLookup (pref_bingo_ul1_cache_evict
        ⟨[], [(1, ⟨4096, 5, {0}⟩)]⟩ 4096).aux (bingo_get_page_number 4096) =
      none ∧
    htLookup (pref_bingo_ul1_cache_evict
        ⟨[], [(1, ⟨4096, 5, {0}⟩)]⟩ 4096).aux 2 =
      htLookup (⟨[], [(1, ⟨4096, 5, {0}⟩)]⟩ : BingoState).aux 2 ∧
    htLookup (pref_bingo_ul1_cache_evict
        ⟨[], [(1, ⟨4096, 5, {0}⟩)]⟩ 4096).history (trunc64 (5 + (4096 >>> 6))) =
      some (add_entry zeroLine ⟨trunc64 (5 + 4096), trunc64 (5 + (4096 >>> 6)),
        ⟨4096, 5, {0}⟩⟩) ∧
    [4096, 4097].foldl pref_bingo_ul1_cache_evict
        (pref_bingo_ul1_cache_evict ⟨[], [(1, ⟨4096, 5, {0}⟩)]⟩ 4096) =
      pref_bingo_ul1_cache_evict ⟨[], [(1, ⟨4096, 5, {0}⟩)]⟩ 4096 := by
  have h := bingo_C5 ⟨[], [(1, ⟨4096, 5, {0}⟩)]⟩ 4096 ⟨4096, 5, {0}⟩
    (by decide)
  exact ⟨h.1, h.2.1 2 (by decide), h.2.2.1, h.2.2.2.2 [4096, 4097] (by decide)⟩

/-- C3: exact-match precedence — if the bucket holds a record whose
`pc_plus_address` equals the query's, the two-stage selection returns a
record with exactly that `pc_plus_address`, regardless of recency
positions. -/
theorem bingo_C3 (histCount : Nat) (t : Bingo_Table_Line) (q pco : Nat)
    (hhc : histCount ≠ 0) (hWF : WFLine t) (i : Nat) (hi : i < t.line.length)
    (hq : (t.line.getD i dfltRec).pc_plus_address = q) :
    ∃ h, bingo_select histCount t q pco = some h ∧ h.pc_plus_address = q := by
  have hmem : t.line.getD i dfltRec ∈ recencyRecords t :=
    mem_recencyRecords_of_slot hWF hi
  have hsome : ((recencyRecords t).find?
      (fun r => r.pc_plus_address == q)).isSome = true :=
    List.find?_isSome.mpr ⟨_, hmem, by simp only [beq_iff_eq]; exact hq⟩
  obtain ⟨h, hfind⟩ := Option.isSome_iff_exists.mp hsome
  refine ⟨h, ?_, ?_⟩
  · unfold bingo_select pref_bingo_find_event_to_fetch_addr
    rw [if_neg hhc, hfind]
  · simpa using List.find?_some hfind

/-- Witness for C3: a two-record bucket where the exact match is the
least-recently-used record and the signature-only match is the
most-recently-used. -/
theorem bingo_C3_witness :
    ∃ h, bingo_select 1
        ⟨[⟨164, 101, ⟨0, 0, ∅⟩⟩, ⟨200, 101, ⟨1, 1, ∅⟩⟩], [1, 0]⟩ 164 101 =
      some h ∧ h.pc_plus_address = 164 := by
  exact bingo_C3 1 ⟨[⟨164, 101, ⟨0, 0, ∅⟩⟩, ⟨200, 101, ⟨1, 1, ∅⟩⟩], [1, 0]⟩
    164 101 (by decide) (by decide) 0 (by decide) (by decide)

/-- C4 counterexample: after seventeen insertions into one bucket, where
all sixteen earlier records share `pc_plus_address` 100, the
least-recently-used record overwritten by the seventeenth insertion is
still retrievable by its former key, because a duplicate remains. -/
theorem bingo_C4_counterexample :
    (runBucket (List.replicate 16 (BOp.add recA))).line.length = 16 ∧
    ((runBucket (List.replicate 16 (BOp.add recA))).line.getD
      ((runBucket (List.replicate 16 (BOp.add recA))).usage_order.getD 15 0)
      dfltRec).pc_plus_address = 100 ∧
    recB.pc_plus_address ≠ 100 ∧
    (pref_bingo_find_event_to_fetch_addr 1
      (add_entry (runBucket (List.replicate 16 (BOp.add recA))) recB)
      100).isSome = true := by
  decide

/-- C4 (amended): every bucket state reachable from the zero-initialised
bucket by `add_entry` and `mark_used_by_address` has `current_size ≤ 16`
with `usage_order` a permutation of exactly the occupied slots; an
insertion into a full bucket overwrites precisely the slot at the back of
the recency order and no other slot; and when no *other* occupied slot
shares the overwritten record's `pc_plus_address` (and the new record does
not either), that key is no longer retrievable afterwards. -/
theorem bingo_C4_amended :
    (∀ ops : List BOp, WFLine (runBucket ops) ∧
      (runBucket ops).current_size ≤ 16) ∧
    (∀ (t : Bingo_Table_Line) (e : Bingo_History_Table), WFLine t →
      t.line.length = 16 →
      (add_entry t e).line.getD (t.usage_order.getD 15 0) dfltRec = e ∧
      ∀ i, i < 16 → i ≠ t.usage_order.getD 15 0 →
        (add_entry t e).line.getD i dfltRec = t.line.getD i dfltRec) ∧
    (∀ (t : Bingo_Table_Line) (e : Bingo_History_Table) (hc : Nat),
      WFLine t → t.line.length = 16 →
      (∀ i, i < 16 → i ≠ t.usage_order.getD 15 0 →
        (t.line.getD i dfltRec).pc_plus_address ≠
          (t.line.getD (t.usage_order.getD 15 0) dfltRec).pc_plus_address) →
      e.pc_plus_address ≠
        (t.line.getD (t.usage_order.getD 15 0) dfltRec).pc_plus_address →
      pref_bingo_find_event_to_fetch_addr hc (add_entry t e)
        ((t.line.getD (t.usage_order.getD 15 0) dfltRec).pc_plus_address) =
        none) := by
  refine ⟨?_, ?_, ?_⟩
  · intro ops
    exact foldl_applyBOp_inv ops zeroLine zeroLine_WF (by decide)
  · intro t e hWF h16
    have hlru_mem : t.usage_order.getD 15 0 ∈ t.usage_order := by
      have h15 : (15 : Nat) < t.usage_order.length := by
        rw [hWF.uo_length, h16]
        omega
      rw [List.getD_eq_getElem _ _ h15]
      exact List.getElem_mem h15
    have hlru_lt : t.usage_order.getD 15 0 < 16 := by
      have := hWF.mem_lt hlru_mem
      omega
    have hadd : add_entry t e =
        { line := t.line.set (t.usage_order.getD 15 0) e,
          usage_order := t.usage_order.getD 15 0 :: t.usage_order.take 15 } := by
      unfold add_entry
      rw [if_neg (by omega)]
    rw [hadd]
    constructor
    · show (t.line.set (t.usage_order.getD 15 0) e).getD
        (t.usage_order.getD 15 0) dfltRec = e
      rw [List.getD_eq_getElem _ _ (by rw [List.length_set, h16]; omega)]
      exact List.getElem_set_self _
    · intro i hi hne
      show (t.line.set (t.usage_order.getD 15 0) e).getD i dfltRec =
        t.line.getD i dfltRec
      rw [List.getD_eq_getElem _ _ (by rw [List.length_set, h16]; omega),
        List.getD_eq_getElem _ _ (lt_of_lt_of_eq hi h16.symm)]
      exact List.getElem_set_ne (fun hx => hne hx.symm) _
  · intro t e hc hWF h16 huniq hnew
    unfold pref_bingo_find_event_to_fetch_addr
    by_cases hhc : hc = 0
    · rw [if_pos hhc]
    · rw [if_neg hhc]
      rw [List.find?_eq_none]
      intro r hr
      simp only [beq_iff_eq]
      have hlru_mem : t.usage_order.getD 15 0 ∈ t.usage_order := by
        have h15 : (15 : Nat) < t.usage_order.length := by
          rw [hWF.uo_length, h16]
          omega
        rw [List.getD_eq_getElem _ _ h15]
        exact List.getElem_mem h15
      have hlru_lt : t.usage_order.getD 15 0 < 16 := by
        have := hWF.mem_lt hlru_mem
        omega
      have hadd : add_entry t e =
          { line := t.line.set (t.usage_order.getD 15 0) e,
            usage_order := t.usage_order.getD 15 0 :: t.usage_order.take 15 } := by
        unfold add_entry
        rw [if_neg (by omega)]
      rw [hadd] at hr
      obtain ⟨idx, hidx, rfl⟩ := List.mem_map.mp hr
      simp only at hidx ⊢
      by_cases hisl : idx = t.usage_order.getD 15 0
      · rw [hisl]
        have hset : (t.line.set (t.usage_order.getD 15 0) e).getD
            (t.usage_order.getD 15 0) dfltRec = e := by
          rw [List.getD_eq_getElem _ _ (by rw [List.length_set, h16]; omega)]
          exact List.getElem_set_self _
        rw [hset]
        exact hnew
      · have hidx_mem : idx ∈ t.usage_order := by
          cases List.mem_cons.mp hidx with
          | inl hx => exact absurd hx hisl
          | inr hx => exact List.take_subset _ _ hx
        have hidx_lt : idx < 16 := by
          have := hWF.mem_lt hidx_mem
          omega
        have : (t.line.set (t.usage_order.getD 15 0) e).getD idx dfltRec =
            t.line.getD idx dfltRec := by
          rw [List.getD_eq_getElem _ _ (by rw [List.length_set, h16]; omega),
            List.getD_eq_getElem _ _ (lt_of_lt_of_eq hidx_lt h16.symm)]
          exact List.getElem_set_ne (fun hx => hisl hx.symm) _
        rw [this]
        exact huniq idx hidx_lt hisl

/-- Witness for C4 at a concrete full bucket with distinct keys. -/
theorem bingo_C4_witness :
    (WFLine (runBucket [BOp.add recA]) ∧
      (runBucket [BOp.add recA]).current_size ≤ 16) ∧
    ((add_entry wbFull recB).line.getD (wbFull.usage_order.getD 15 0)
        dfltRec = recB ∧
      (add_entry wbFull recB).line.getD 3 dfltRec =
        wbFull.line.getD 3 dfltRec) ∧
    pref_bingo_find_event_to_fetch_addr 1 (add_entry wbFull recB)
      ((wbFull.line.getD (wbFull.usage_order.getD 15 0)
        dfltRec).pc_plus_address) = none := by
  have h1 := bingo_C4_amended.1 [BOp.add recA]
  have h2 := bingo_C4_amended.2.1 wbFull recB (by decide) (by decide)
  have h3 := bingo_C4_amended.2.2 wbFull recB 1 (by decide) (by decide)
    (by decide) (by decide)
  exact ⟨h1, ⟨h2.1, h2.2 3 (by decide) (by decide)⟩, h3⟩

/-- C6 counterexample: a reachable state (miss, evict, miss, evict on the
same line with the same PC) whose bucket holds two distinct occupied slots
with equal `pc_plus_address`. -/
theorem bingo_C6_counterexample :
    ((htLookup (run ⟨6, 0⟩ [.miss 0 4096 5, .evict 0 4096, .miss 0 4096 5,
        .evict 0 4096]).history (trunc64 (5 + (4096 >>> 6)))).getD
      zeroLine).line.length = 2 ∧
    (((htLookup (run ⟨6, 0⟩ [.miss 0 4096 5, .evict 0 4096, .miss 0 4096 5,
        .evict 0 4096]).history (trunc64 (5 + (4096 >>> 6)))).getD
      zeroLine).line.getD 0 dfltRec).pc_plus_address =
    (((htLookup (run ⟨6, 0⟩ [.miss 0 4096 5, .evict 0 4096, .miss 0 4096 5,
        .evict 0 4096]).history (trunc64 (5 + (4096 >>> 6)))).getD
      zeroLine).line.getD 1 dfltRec).pc_plus_address := by
  decide

/-- C6 (amended): duplicate `pc_plus_address` entries within one bucket are
reachable, so ties during the exact-match search are possible; the search
resolves them deterministically by returning the record at the earliest
matching position of the recency order. -/
theorem bingo_C6_amended (hc : Nat) (t : Bingo_Table_Line) (q : Nat)
    (i : Nat) (hhc : hc ≠ 0) (hi : i < t.usage_order.length)
    (hmatch : (t.line.getD (t.usage_order.getD i 0) dfltRec).pc_plus_address
      = q)
    (hfirst : ∀ j, j < i →
      (t.line.getD (t.usage_order.getD j 0) dfltRec).pc_plus_address ≠ q) :
    pref_bingo_find_event_to_fetch_addr hc t q =
      some (t.line.getD (t.usage_order.getD i 0) dfltRec) := by
  unfold pref_bingo_find_event_to_fetch_addr
  rw [if_neg hhc]
  have hlen : i < (recencyRecords t).length := by
    rw [recencyRecords_length]
    exact hi
  have h1 : (fun r => r.pc_plus_address == q)
      ((recencyRecords t).getD i dfltRec) = true := by
    rw [recencyRecords_getD t i hi]
    simp only [beq_iff_eq]
    exact hmatch
  have h2 : ∀ j, j < i → (fun r => r.pc_plus_address == q)
      ((recencyRecords t).getD j dfltRec) = false := by
    intro j hj
    rw [recencyRecords_getD t j (lt_trans hj hi)]
    simp only [beq_eq_false_iff_ne, ne_eq]
    exact hfirst j hj
  rw [find?_first _ dfltRec (recencyRecords t) i hlen h1 h2,
    recencyRecords_getD t i hi]

/-- Witness for C6 at a concrete two-record bucket with a duplicate key:
the most-recently-used duplicate wins. -/
theorem bingo_C6_witness :
    pref_bingo_find_event_to_fetch_addr 1
      ⟨[⟨164, 101, ⟨0, 0, ∅⟩⟩, ⟨164, 101, ⟨1, 1, ∅⟩⟩], [1, 0]⟩ 164 =
      some ⟨164, 101, ⟨1, 1, ∅⟩⟩ := by
  exact bingo_C6_amended 1
    ⟨[⟨164, 101, ⟨0, 0, ∅⟩⟩, ⟨164, 101, ⟨1, 1, ∅⟩⟩], [1, 0]⟩ 164 0
    (by decide) (by decide) (by decide) (fun j hj => absurd hj (by omega))

theorem mark_used_none (t : Bingo_Table_Line) (pca : Nat)
    (hfi : findIdxA (fun r => r.pc_plus_address == pca) t.line = none) :
    mark_used_by_address t pca = t := by
  simp only [mark_used_by_address]
  rw [hfi]

theorem mark_used_some (t : Bingo_Table_Line) (pca fi : Nat)
    (hfi : findIdxA (fun r => r.pc_plus_address == pca) t.line = some fi) :
    mark_used_by_address t pca =
      { t with usage_order := promote t.usage_order fi } := by
  simp only [mark_used_by_address]
  rw [hfi]

theorem marked_front (hcnt : Nat) (t : Bingo_Table_Line) (pca pco : Nat)
    (hWF : WFLine t)
    (hkey : ∀ r ∈ t.line, r.pc_plus_offset = pco)
    (huniq : ∀ i j, i < t.line.length → j < t.line.length →
      (t.line.getD i dfltRec).pc_plus_address = pca →
      (t.line.getD j dfltRec).pc_plus_address = pca → i = j)
    (h : Bingo_History_Table)
    (hsel : bingo_select hcnt t pca pco = some h) :
    (mark_used_by_address t pca).line.getD
      ((mark_used_by_address t pca).usage_order.getD 0 0) dfltRec = h := by
  cases hfa : pref_bingo_find_event_to_fetch_addr hcnt t pca with
  | some h' =>
    have hh' : h' = h := by
      unfold bingo_select at hsel
      rw [hfa] at hsel
      simpa using hsel
    by_cases hhc : hcnt = 0
    · rw [pref_bingo_find_event_to_fetch_addr, if_pos hhc] at hfa
      exact absurd hfa (by simp)
    · rw [pref_bingo_find_event_to_fetch_addr, if_neg hhc] at hfa
      have hpred := List.find?_some hfa
      have hmem := List.mem_of_find?_eq_some hfa
      obtain ⟨idx, hidxmem, hidx⟩ := List.mem_map.mp hmem
      have hidxlt : idx < t.line.length := hWF.mem_lt hidxmem
      cases hfi : findIdxA (fun r => r.pc_plus_address == pca) t.line with
      | none =>
        exfalso
        have hall := (findIdxA_eq_none
          (fun r => r.pc_plus_address == pca) t.line).mp hfi
        have hmem2 : t.line.getD idx dfltRec ∈ t.line := by
          rw [List.getD_eq_getElem _ _ hidxlt]
          exact List.getElem_mem hidxlt
        have hfalse := hall _ hmem2
        rw [hidx] at hfalse
        rw [hpred] at hfalse
        simp at hfalse
      | some fi =>
        obtain ⟨hfilt, hfip, _⟩ :=
          findIdxA_some (fun r => r.pc_plus_address == pca) dfltRec _ _ hfi
        have hfi_eq : fi = idx := by
          refine huniq fi idx hfilt hidxlt (by simpa using hfip) ?_
          rw [hidx]
          simpa using hpred
        have hfimem : fi ∈ t.usage_order := hWF.mem_of_lt hfilt
        rw [mark_used_some t pca fi hfi]
        show t.line.getD ((promote t.usage_order fi).getD 0 0) dfltRec = h
        unfold promote
        rw [if_pos hfimem]
        show t.line.getD fi dfltRec = h
        rw [hfi_eq, hidx]
        exact hh'
  | none =>
    have hfo : pref_bingo_find_event_to_fetch hcnt t pco = some h := by
      unfold bingo_select at hsel
      rw [hfa] at hsel
      exact hsel
    by_cases hhc : hcnt = 0
    · rw [pref_bingo_find_event_to_fetch, if_pos hhc] at hfo
      exact absurd hfo (by simp)
    · rw [pref_bingo_find_event_to_fetch, if_neg hhc] at hfo
      rw [pref_bingo_find_event_to_fetch_addr, if_neg hhc] at hfa
      have hnone := List.find?_eq_none.mp hfa
      have hfidx : findIdxA (fun r => r.pc_plus_address == pca) t.line =
          none := by
        rw [findIdxA_eq_none]
        intro r hr
        obtain ⟨n, hn, rfl⟩ := List.mem_iff_getElem.mp hr
        have hrec : t.line[n] ∈ recencyRecords t := by
          have hx := mem_recencyRecords_of_slot hWF hn
          rwa [List.getD_eq_getElem _ _ hn] at hx
        have := hnone _ hrec
        simpa using this
      rw [mark_used_none t pca hfidx]
      have hmem := List.mem_of_find?_eq_some hfo
      have hne : recencyRecords t ≠ [] := List.ne_nil_of_mem hmem
      have huo_pos : 0 < t.usage_order.length := by
        rw [← recencyRecords_length]
        exact List.length_pos.mpr hne
      have hhead : (recencyRecords t).getD 0 dfltRec =
          t.line.getD (t.usage_order.getD 0 0) dfltRec :=
        recencyRecords_getD t 0 huo_pos
      have hslot_mem : t.usage_order.getD 0 0 ∈ t.usage_order := by
        rw [List.getD_eq_getElem _ _ huo_pos]
        exact List.getElem_mem huo_pos
      have hslot_lt : t.usage_order.getD 0 0 < t.line.length :=
        hWF.mem_lt hslot_mem
      have hheadmem : t.line.getD (t.usage_order.getD 0 0) dfltRec ∈
          t.line := by
        rw [List.getD_eq_getElem _ _ hslot_lt]
        exact List.getElem_mem hslot_lt
      have hheadpred : (fun r => r.pc_plus_offset == pco)
          ((recencyRecords t).getD 0 dfltRec) = true := by
        rw [hhead]
        simp only [beq_iff_eq]
        exact hkey _ hheadmem
      have hfirst := find?_first (fun r => r.pc_plus_offset == pco) dfltRec
        (recencyRecords t) 0 (by rw [recencyRecords_length]; exact huo_pos)
        hheadpred (fun j hj => absurd hj (by omega))
      rw [hfirst] at hfo
      have hh : (recencyRecords t).getD 0 dfltRec = h := by simpa using hfo
      rw [← hh, hhead]

/-- C2 (amended): on a miss that selects a record from a well-formed bucket
in which at most one occupied slot carries the query's `pc_plus_address`,
the selected record is at the front of the bucket's recency ordering after
the handler returns.  (Without that uniqueness proviso the promotion can
move a duplicate instead of the selected record — see the
counterexample.) -/
theorem bingo_C2_amended (cfg : BingoCfg) (s : BingoState)
    (proc_id a pc : Nat) (line : Bingo_Table_Line) (h : Bingo_History_Table)
    (hl : htLookup s.history (trunc64 (pc + ((a >>> 6) <<< 6))) = some line)
    (hWF : WFLine line)
    (hkey : ∀ r ∈ line.line,
      r.pc_plus_offset = trunc64 (pc + ((a >>> 6) <<< 6)))
    (huniq : ∀ i j, i < line.line.length → j < line.line.length →
      (line.line.getD i dfltRec).pc_plus_address = trunc64 (pc + a) →
      (line.line.getD j dfltRec).pc_plus_address = trunc64 (pc + a) → i = j)
    (hsel : bingo_select (htCount s.history) line (trunc64 (pc + a))
      (trunc64 (pc + ((a >>> 6) <<< 6))) = some h) :
    ∃ line', htLookup (pref_bingo_ul1_miss cfg s proc_id a pc).1.history
        (trunc64 (pc + ((a >>> 6) <<< 6))) = some line' ∧
      line'.line.getD (line'.usage_order.getD 0 0) dfltRec = h := by
  rw [miss_match cfg s proc_id a pc line h hl hsel]
  exact ⟨mark_used_by_address line (trunc64 (pc + a)),
    htLookup_htReplace_self _ _ _,
    marked_front (htCount s.history) line _ _ hWF hkey huniq h hsel⟩

/-- Witness for C2: a two-record bucket with distinct exact keys; the miss
from `loadPC` 101 at address 63 selects the exact match at the back of the
recency order and promotes it to the front. -/
theorem bingo_C2_witness :
    ∃ line', htLookup (pref_bingo_ul1_miss ⟨6, 0⟩
        ⟨[(101, ⟨[⟨164, 101, ⟨64, 100, {1}⟩⟩, ⟨200, 101, ⟨0, 0, ∅⟩⟩],
          [1, 0]⟩)], []⟩ 0 63 101).1.history
        (trunc64 (101 + ((63 >>> 6) <<< 6))) = some line' ∧
      line'.line.getD (line'.usage_order.getD 0 0) dfltRec =
        ⟨164, 101, ⟨64, 100, {1}⟩⟩ := by
  exact bingo_C2_amended ⟨6, 0⟩
    ⟨[(101, ⟨[⟨164, 101, ⟨64, 100, {1}⟩⟩, ⟨200, 101, ⟨0, 0, ∅⟩⟩],
      [1, 0]⟩)], []⟩ 0 63 101
    ⟨[⟨164, 101, ⟨64, 100, {1}⟩⟩, ⟨200, 101, ⟨0, 0, ∅⟩⟩], [1, 0]⟩
    ⟨164, 101, ⟨64, 100, {1}⟩⟩ (by decide) (by decide) (by decide)
    (by
      intro i j hi hj h1 h2
      have hi' : i < 2 := hi
      have hj' : j < 2 := hj
      interval_cases i <;> interval_cases j <;>
        first
          | rfl
          | exact absurd h1 (by decide)
          | exact absurd h2 (by decide))
    (by decide)

/-- C2 counterexample: a reachable run (two commit epochs of line 64 with
trigger PC 100 produce duplicate exact keys in one bucket) in which the
miss from `loadPC` 101 at address 63 selects the most-recent duplicate
(footprint `{1}`) but the handler promotes the other duplicate (footprint
`{1, 2}`), so the selected record ends at the back, not the front. -/
theorem bingo_C2_counterexample :
    bingo_select
      (htCount (run ⟨6, 0⟩ [.miss 0 64 100, .hit 0 128 7, .evict 0 64,
        .miss 0 64 100, .evict 0 64]).history)
      ((htLookup (run ⟨6, 0⟩ [.miss 0 64 100, .hit 0 128 7, .evict 0 64,
        .miss 0 64 100, .evict 0 64]).history
        (trunc64 (101 + ((63 >>> 6) <<< 6)))).getD zeroLine)
      (trunc64 (101 + 63)) (trunc64 (101 + ((63 >>> 6) <<< 6))) =
      some ⟨164, 101, ⟨64, 100, {1}⟩⟩ ∧
    ((htLookup (step ⟨6, 0⟩ (run ⟨6, 0⟩ [.miss 0 64 100, .hit 0 128 7,
        .evict 0 64, .miss 0 64 100, .evict 0 64]) (.miss 0 63 101)).history
        (trunc64 (101 + ((63 >>> 6) <<< 6)))).getD zeroLine).line.getD
      (((htLookup (step ⟨6, 0⟩ (run ⟨6, 0⟩ [.miss 0 64 100, .hit 0 128 7,
        .evict 0 64, .miss 0 64 100, .evict 0 64]) (.miss 0 63 101)).history
        (trunc64 (101 + ((63 >>> 6) <<< 6)))).getD
        zeroLine).usage_order.getD 0 0) dfltRec ≠
      ⟨164, 101, ⟨64, 100, {1}⟩⟩ := by
  decide

/-- C7 (amended): a live footprint's set bits are exactly the distinct
block indices observed for its page via *learning* events (hits, and
misses on which the lookup selected no record) since the record's
creation; and no event ever clears a bit of a surviving record.  (A miss
that selects a record and prefetches does not record its block — see the
counterexample.) -/
theorem bingo_C7_amended (cfg : BingoCfg) :
    (∀ (evs : List BEvent) (p : Nat),
      (htLookup (run cfg evs).aux p).map (·.footprint) = ghostRun cfg evs p) ∧
    (∀ (s : BingoState) (ev : BEvent) (p : Nat) (e e' : Aux_Entry),
      htLookup s.aux p = some e → htLookup (step cfg s ev).aux p = some e' →
      e.footprint ⊆ e'.footprint) := by
  refine ⟨ghostRun_correct cfg, fun s ev p e e' he he' => ?_⟩
  have h1 := learnStep_correct cfg s ev p
  rw [he, he'] at h1
  simp only [Option.map_some'] at h1
  exact learnStep_mono s ev p e.footprint e'.footprint h1.symm

/-- Witness for C7: the trace equation at a one-hit run, and the
never-clear property applied across a second hit to the same page. -/
theorem bingo_C7_witness :
    (htLookup (run ⟨6, 0⟩ [.hit 0 64 9]).aux 0).map (·.footprint) =
      ghostRun ⟨6, 0⟩ [.hit 0 64 9] 0 ∧
    (⟨64, 9, ({1} : Finset Nat)⟩ : Aux_Entry).footprint ⊆
      (⟨64, 9, insert 2 ({1} : Finset Nat)⟩ : Aux_Entry).footprint := by
  refine ⟨(bingo_C7_amended ⟨6, 0⟩).1 [.hit 0 64 9] 0, ?_⟩
  exact (bingo_C7_amended ⟨6, 0⟩).2 ⟨[], [(0, ⟨64, 9, {1}⟩)]⟩ (.hit 0 128 9)
    0 ⟨64, 9, {1}⟩ ⟨64, 9, insert 2 {1}⟩ (by decide) (by rfl)

/-- C7 counterexample: page 2 has a live record with footprint `{0}`; a
miss at address 8256 (page 2, block 1) matches history and prefetches, and
the live footprint still lacks bit 1 afterwards — so the set bits are not
the set of all observed block indices. -/
theorem bingo_C7_counterexample :
    bingo_get_page_number 8256 = 2 ∧
    bingo_get_block_index 8256 = 1 ∧
    htLookup (run ⟨6, 0⟩ [.miss 0 4096 10000, .evict 0 4096,
      .hit 0 8192 9]).aux 2 = some ⟨8192, 9, {0}⟩ ∧
    (stepOut ⟨6, 0⟩ (run ⟨6, 0⟩ [.miss 0 4096 10000, .evict 0 4096,
      .hit 0 8192 9]) (.miss 0 8256 1808)).2 ≠ [] ∧
    htLookup (step ⟨6, 0⟩ (run ⟨6, 0⟩ [.miss 0 4096 10000, .evict 0 4096,
      .hit 0 8192 9]) (.miss 0 8256 1808)).aux 2 = some ⟨8192, 9, {0}⟩ ∧
    1 ∉ ({0} : Finset Nat) := by
  decide

/-- C1: evaluation of the code on the spec's end-to-end scenario.  After
learning footprint `{0, 1}` on page 1 (trigger PC 5, trigger line 4096)
and committing on eviction of line 4096, the record sits under key
`5 + (4096 >> 6) = 69`; the later miss from the same PC 5 at page 2, same
relative line offset, computes lookup key `5 + 8192 = 8197`, finds no
bucket, and emits no prefetch requests — not the two requests the claim
requires. -/
theorem bingo_C1_evaluation :
    (htLookup (run ⟨6, 0⟩ [.miss 0 4096 5, .hit 0 4160 5,
      .evict 0 4096]).history (trunc64 (5 + (4096 >>> 6)))).isSome = true ∧
    (((htLookup (run ⟨6, 0⟩ [.miss 0 4096 5, .hit 0 4160 5,
      .evict 0 4096]).history (trunc64 (5 + (4096 >>> 6)))).getD
      zeroLine).line.getD 0 dfltRec).entry.footprint = {0, 1} ∧
    bingo_get_page_number 8192 ≠ bingo_get_page_number 4096 ∧
    bingo_get_block_index 8192 = bingo_get_block_index 4096 ∧
    htLookup (run ⟨6, 0⟩ [.miss 0 4096 5, .hit 0 4160 5,
      .evict 0 4096]).history (trunc64 (5 + ((8192 >>> 6) <<< 6))) = none ∧
    (stepOut ⟨6, 0⟩ (run ⟨6, 0⟩ [.miss 0 4096 5, .hit 0 4160 5,
      .evict 0 4096]) (.miss 0 8192 5)).2 = [] := by
  decide
